import Mathlib

/-!
Shallow embedding of the retrieval/ingestion core of the
`ai-customer-support-bot` repository (TypeScript), together with proofs of
the specification claims about it.

Conventions of the embedding:
* JavaScript exceptions thrown by the external vector store / content
  service are modelled by explicit outcome parameters (`Option`, `Except`,
  `Bool`): a function of the repository that catches an exception receives
  the would-be outcome as an argument.
* JavaScript strings are modelled as `List Char` for the text-processing
  code (the FAQ extractor) and as `String` elsewhere.
* Wall-clock fields (`processingTime`) are irrelevant to every claim and
  are omitted from the record models.
-/

namespace Storage

/-- Structured error entry pushed by the storage layer
(`{code, message, details}` objects in `storage.ts`). -/
structure ErrorEntry where
  code : String
  message : String
deriving Repr, DecidableEq

/-- `BatchResult` from `src/lib/pinecone/types.ts` (without the wall-clock
`processingTime` field, which no claim mentions). -/
structure BatchResult where
  success : Bool
  processedCount : Nat
  failedCount : Nat
  errors : List ErrorEntry
deriving Repr, DecidableEq

/-- `PineconeStorage.upsertRecords` (storage.ts lines 16-60).
The store call `index.upsertRecords(records)` either succeeds
(`storeOutcome = none`) or throws with a message (`storeOutcome = some msg`).
On success: `success = true`, `processedCount = records.length`,
`failedCount = 0`, no errors.  On a throw, the exception is caught (never
re-raised): `processedCount` is still `0` at the catch site, so the result is
`success = false`, `processedCount = 0`,
`failedCount = records.length - 0`, and exactly one `UPSERT_ERROR` entry. -/
def upsertRecords (storeOutcome : Option String) (records : List α) : BatchResult :=
  match storeOutcome with
  | none =>
      { success := true
        processedCount := records.length
        failedCount := 0
        errors := [] }
  | some msg =>
      { success := false
        processedCount := 0
        failedCount := records.length - 0
        errors := [{ code := "UPSERT_ERROR", message := msg }] }

/-- The chunks visited by the loop
`for (let i = 0; i < records.length; i += batchSize)` in
`batchUpsertRecords` (storage.ts line 78), each chunk being
`records.slice(i, i + batchSize)`.  Faithful for `batchSize ≥ 1`
(with `batchSize = 0` the JavaScript loop would not terminate). -/
def batchChunks (batchSize : Nat) : List α → List (List α)
  | [] => []
  | r :: rs => (r :: rs).take batchSize :: batchChunks batchSize (rs.drop (batchSize - 1))
termination_by l => l.length
decreasing_by
  simp only [List.length_drop, List.length_cons]
  omega

/-- The per-chunk calls `this.upsertRecords(indexName, batch, namespace)`
made by the batch loop, in order; `storeOutcomes k` is the outcome of the
store call for chunk number `k` (0-based). -/
def runChunks (storeOutcomes : Nat → Option String) :
    List (List α) → Nat → List BatchResult
  | [], _ => []
  | c :: cs, k => upsertRecords (storeOutcomes k) c :: runChunks storeOutcomes cs (k + 1)

/-- `PineconeStorage.batchUpsertRecords` (storage.ts lines 65-100), normal
(non-catch) return path: partition into chunks, submit every chunk through
`upsertRecords` (which never throws, so no chunk failure aborts the loop),
accumulate `processedCount` and all error entries, and return
`success := allErrors.length === 0`,
`failedCount := records.length - totalProcessed`. -/
def batchUpsertRecords (storeOutcomes : Nat → Option String)
    (records : List α) (batchSize : Nat) : BatchResult :=
  let chunkResults := runChunks storeOutcomes (batchChunks batchSize records) 0
  let totalProcessed := (chunkResults.map (·.processedCount)).sum
  let allErrors := (chunkResults.map (·.errors)).flatten
  { success := allErrors.length = 0
    processedCount := totalProcessed
    failedCount := records.length - totalProcessed
    errors := allErrors }

/-- The catch-branch return of `batchUpsertRecords` (storage.ts lines
101-117): if the loop body itself threw after `j` completed chunks, the
accumulated `totalProcessed` and `allErrors` at that point are returned with
`success = false`, `failedCount = records.length - totalProcessed` and one
extra `BATCH_ERROR` entry. -/
def batchUpsertCatch (storeOutcomes : Nat → Option String)
    (records : List α) (batchSize : Nat) (j : Nat) (msg : String) : BatchResult :=
  let chunkResults := (runChunks storeOutcomes (batchChunks batchSize records) 0).take j
  let totalProcessed := (chunkResults.map (·.processedCount)).sum
  let allErrors := (chunkResults.map (·.errors)).flatten
  { success := false
    processedCount := totalProcessed
    failedCount := records.length - totalProcessed
    errors := allErrors ++ [{ code := "BATCH_ERROR", message := msg }] }

end Storage

namespace Retry

/-- Trace of `AvenScraper.scrapeWithRetry` (exa scraper, lines 362-384):
the final outcome, the number of attempts actually performed, and the list
of backoff delays (in milliseconds) waited between attempts, in order.
A thrown error is `Except.error (some e)`; `Except.error none` models the
degenerate `throw lastError!` with `lastError` never assigned
(only reachable with `maxRetries = 0`). -/
structure RetryTrace (E A : Type) where
  result : Except (Option E) A
  attempts : Nat
  delays : List Nat

/-- The loop `for (let attempt = 1; attempt <= maxRetries; attempt++)` of
`scrapeWithRetry`, shown with the attempt counter and the number of
remaining attempts (`remaining = maxRetries - attempt + 1`).
`outcome i` is the result of the full scrape-extract-validate cycle run as
attempt `i` (each attempt re-runs the whole cycle from scratch).  On a
failure that is not the last attempt, the loop waits
`Math.pow(2, attempt) * 1000` milliseconds and retries; on the last
attempt's failure it breaks and throws the last error. -/
def scrapeWithRetryAux (outcome : Nat → Except E A) :
    Nat → Nat → RetryTrace E A
  | _, 0 => { result := Except.error none, attempts := 0, delays := [] }
  | attempt, 1 =>
      match outcome attempt with
      | Except.ok a => { result := Except.ok a, attempts := 1, delays := [] }
      | Except.error e =>
          { result := Except.error (some e), attempts := 1, delays := [] }
  | attempt, (r + 2) =>
      match outcome attempt with
      | Except.ok a => { result := Except.ok a, attempts := 1, delays := [] }
      | Except.error _ =>
          let rest := scrapeWithRetryAux outcome (attempt + 1) (r + 1)
          { result := rest.result
            attempts := rest.attempts + 1
            delays := 2 ^ attempt * 1000 :: rest.delays }

/-- `AvenScraper.scrapeWithRetry(maxRetries)`: run the cycle starting at
attempt 1 with `maxRetries` attempts available. -/
def scrapeWithRetry (outcome : Nat → Except E A) (maxRetries : Nat) :
    RetryTrace E A :=
  scrapeWithRetryAux outcome 1 maxRetries

end Retry

namespace Search

/-- The query part of the `index.searchRecords` request built by
`PineconeSearch.semanticSearch` (search.ts lines 29-43): the number of
candidates requested from the store and the raw query text embedded
server-side.  The structured `filter` is passed through opaquely and is
not modelled. -/
structure QueryPart where
  topK : Nat
  text : String
deriving Repr, DecidableEq

/-- The rerank part of the `searchRecords` request: reranker model name,
`topN` (how many results the reranker must return) and the metadata
fields the reranker ranks on. -/
structure RerankPart where
  model : String
  topN : Nat
  rankFields : List String
deriving Repr, DecidableEq

/-- The full `searchRecords` request object. -/
structure SearchRecordsRequest where
  query : QueryPart
  rerank : RerankPart
deriving Repr, DecidableEq

/-- One hit returned by the store: id, optional reranker score
(represented as an exact rational in place of the JavaScript float; no
claim depends on score values), and the stored metadata fields. -/
structure Hit where
  id : String
  score : Option ℚ
  fields : List (String × String)
deriving Repr, DecidableEq

/-- One normalized `SearchResult` (`hit.score || 0` defaults a missing
score to 0; metadata is the hit's `fields`). -/
structure SearchResult where
  id : String
  score : ℚ
  metadata : List (String × String)
deriving Repr, DecidableEq

/-- `config.topK || 10` — JavaScript `||` takes the default both when
`topK` is absent and when it is the falsy `0`. -/
def effectiveTopK (cfgTopK : Option Nat) : Nat :=
  match cfgTopK with
  | none => 10
  | some k => if k = 0 then 10 else k

/-- The request built by `PineconeSearch.semanticSearch` (search.ts lines
29-43): over-fetch `min(topK * 5, 100)` candidates and instruct the
`bge-reranker-v2-m3` reranker to return `topN = topK` results ranked on
the `original_text` metadata field. -/
def semanticSearchRequest (queryText : String) (cfgTopK : Option Nat) :
    SearchRecordsRequest :=
  let topK := effectiveTopK cfgTopK
  { query := { topK := min (topK * 5) 100, text := queryText }
    rerank :=
      { model := "bge-reranker-v2-m3"
        topN := topK
        rankFields := ["original_text"] } }

/-- `PineconeSearch.semanticSearch` result assembly (search.ts lines
46-60): the store (modelled as a function from the request to the hit
list) answers the request, and each hit is normalized into a
`SearchResult`. -/
def semanticSearch (queryText : String) (cfgTopK : Option Nat)
    (storeHits : SearchRecordsRequest → List Hit) : List SearchResult :=
  let hits := storeHits (semanticSearchRequest queryText cfgTopK)
  hits.map fun h => { id := h.id, score := h.score.getD 0, metadata := h.fields }

end Search

namespace Chat

/-- The pieces of one semantic-search hit that the chat route reads when
building the context block (`app/api/chat/route.ts` lines 108-118): the
optional `original_text`, `chunk_text` and `category` metadata fields, and
the already-formatted relevance score (standing in for
`result.score?.toFixed(3)`; `none` models an absent score — no claim
depends on score arithmetic). -/
structure CtxResult where
  original_text : Option String
  chunk_text : Option String
  category : Option String
  scoreFixed : Option String
deriving Repr, DecidableEq

/-- JavaScript `a || b` on strings: take `b` when `a` is absent or the
falsy empty string. -/
def jsOrStr (a : Option String) (b : String) : String :=
  match a with
  | none => b
  | some s => if s = "" then b else s

/-- One `[Context i - category (relevance: score)]:\ntext` part
(route.ts lines 110-115). -/
def contextPart (i : Nat) (r : CtxResult) : String :=
  let text := jsOrStr r.original_text (jsOrStr r.chunk_text "")
  let category := jsOrStr r.category "General"
  let score := jsOrStr r.scoreFixed "0.000"
  "[Context " ++ toString (i + 1) ++ " - " ++ category ++ " (relevance: " ++
    score ++ ")]:\n" ++ text

/-- JavaScript `Array.prototype.join(sep)`: empty string for an empty
array, otherwise the elements interleaved with the separator. -/
def joinSep (sep : String) : List String → String
  | [] => ""
  | [s] => s
  | s :: r :: rest => s ++ (sep ++ joinSep sep (r :: rest))

/-- `contextParts.join('\n\n').substring(0, MAX_CONTEXT_LENGTH)` with
`MAX_CONTEXT_LENGTH = 4000` (route.ts line 118); the truncation is taken
character-wise. -/
def buildContext (results : List CtxResult) : String :=
  String.mk
    ((joinSep "\n\n" ((results.enum).map fun p => contextPart p.1 p.2)).data.take
      4000)

/-- The `context` variable after the retrieval phase of the POST handler
(route.ts lines 78-131): it stays `''` when `includeContext` is off, when
the semantic search throws (the inner catch at line 127 swallows the
error and continues), and when the search returns zero results; it is the
built context block otherwise. -/
def chatContext (includeContext : Bool)
    (searchOutcome : Except String (List CtxResult)) : String :=
  if includeContext then
    match searchOutcome with
    | Except.error _ => ""
    | Except.ok rs => if 0 < rs.length then buildContext rs else ""
  else ""

/-- The parts of the chat POST response relevant to the claims: the LLM
answer is always produced (the handler reaches the completion call
whatever the retrieval phase did), `contextUsed := !!context`, and
`searchResults` metadata is `null` exactly when no search response was
assigned (search off or thrown). -/
structure ChatReply where
  message : String
  contextUsed : Bool
  searchCount : Option Nat
deriving Repr, DecidableEq

/-- The POST handler (route.ts lines 55-193) restricted to the
retrieval-and-metadata logic: `llmResponse` is the text the external LLM
returns for the composed prompt. -/
def chatPOST (includeContext : Bool)
    (searchOutcome : Except String (List CtxResult))
    (llmResponse : String) : ChatReply :=
  let context := chatContext includeContext searchOutcome
  { message := llmResponse
    contextUsed := context ≠ ""
    searchCount :=
      if includeContext then
        match searchOutcome with
        | Except.ok rs => some rs.length
        | Except.error _ => none
      else none }

end Chat

namespace Extractor

/-!
`AvenScraper.processRawTextContent` and `validateAndCleanFAQs`
(`src/lib/exa/client.ts`), embedded over `List Char`.  The JavaScript
regular expressions are translated into explicit scanners with the exact
backtracking semantics of the originals; scanners whose recursion is not
structural take a fuel argument always instantiated with (at least) the
input length, which bounds the number of scan steps.  `\s` and `trim()`
whitespace is the ECMAScript WhiteSpace/LineTerminator set, modelled by
`jsWhitespace`. -/

/-- The ECMAScript whitespace set used by both `\s` in regexes and
`String.prototype.trim`: tab, LF, VT, FF, CR, space, NBSP, and the
Unicode space separators, line/paragraph separators and BOM. -/
def jsWhitespace (c : Char) : Bool :=
  c = ' ' || c = '\t' || c = '\n' || c = '\r' || c = '\x0b' || c = '\x0c' ||
    c = '\u00A0' || c = '\u1680' ||
    (0x2000 ≤ c.toNat && c.toNat ≤ 0x200A) ||
    c = '\u2028' || c = '\u2029' || c = '\u202F' || c = '\u205F' ||
    c = '\u3000' || c = '\uFEFF'

/-- JavaScript `s.trim()`. -/
def jsTrim (s : List Char) : List Char :=
  List.rdropWhile jsWhitespace (List.dropWhile jsWhitespace s)

/-- `trim()` on packed strings. -/
def trimStr (s : String) : String := String.mk (jsTrim s.data)

/-- Index of the first occurrence of `pat` as a contiguous sublist, if
any (the leftmost match position of a literal regex). -/
def findSub (pat : List Char) : List Char → Option Nat
  | [] => if pat.isPrefixOf ([] : List Char) then some 0 else none
  | c :: rest =>
      if pat.isPrefixOf (c :: rest) then some 0
      else (findSub pat rest).map (· + 1)

/-- Lower-casing for the one case-insensitive regex (`/## How can we help\?/i`). -/
def lowerStr (s : List Char) : List Char := s.map Char.toLower

/-- The fixed introductory heading marker. -/
def helpMarker : List Char := "## How can we help?".toList

/-- `text.split(/## How can we help\?/i)[1] ?? ''` (client.ts line 236):
the slice of `text` strictly between the first marker occurrence
(case-insensitive) and the second (or the end when there is only one);
`[]` when the marker is absent. -/
def splitMarkerTail (text : List Char) : List Char :=
  match findSub (lowerStr helpMarker) (lowerStr text) with
  | none => []
  | some i =>
      let afterFirst := text.drop (i + helpMarker.length)
      match findSub (lowerStr helpMarker) (lowerStr afterFirst) with
      | none => afterFirst
      | some j => afterFirst.take j

/-- `.replace(/SHOW MORE/g, '')`: remove every (non-overlapping,
left-to-right) occurrence of `pat`; `fuel ≥ s.length` steps suffice. -/
def removeAllFuel (pat : List Char) : Nat → List Char → List Char
  | 0, s => s
  | _ + 1, [] => []
  | fuel + 1, c :: rest =>
      if pat.isPrefixOf (c :: rest) then
        removeAllFuel pat fuel ((c :: rest).drop pat.length)
      else c :: removeAllFuel pat fuel rest

def removeAll (pat : List Char) (s : List Char) : List Char :=
  removeAllFuel pat s.length s

/-- Index of the first occurrence of `target` that is not preceded by a
newline (the reach of a lazy `.` scan, which cannot cross `\n`). -/
def findBeforeNL (target : Char) : List Char → Option Nat
  | [] => none
  | c :: rest =>
      if c = target then some 0
      else if c = '\n' then none
      else (findBeforeNL target rest).map (· + 1)

/-- Match of `/!\[.*?\]\(.*?\)/` at a position just after `![`: scan for
the first `](` (lazily extending the first `.*?` over anything but `\n`)
whose following text has a `)` before any `\n`; returns the number of
characters matched after the `![`. -/
def matchImageAux : Nat → List Char → Nat → Option Nat
  | 0, _, _ => none
  | _ + 1, [], _ => none
  | fuel + 1, c :: rest, consumed =>
      if c = '\n' then none
      else
        match c, rest with
        | ']', '(' :: rest2 =>
            (match findBeforeNL ')' rest2 with
             | some j => some (consumed + 2 + j + 1)
             | none => matchImageAux fuel rest (consumed + 1))
        | _, _ => matchImageAux fuel rest (consumed + 1)

def matchImage (s : List Char) : Option Nat :=
  matchImageAux (s.length + 1) s 0

/-- `.replace(/!\[.*?\]\(.*?\)/g, '')` (client.ts line 239). -/
def stripImagesFuel : Nat → List Char → List Char
  | 0, s => s
  | _ + 1, [] => []
  | fuel + 1, '!' :: '[' :: rest =>
      (match matchImage rest with
       | some k => stripImagesFuel fuel (rest.drop k)
       | none => '!' :: stripImagesFuel fuel ('[' :: rest))
  | fuel + 1, c :: rest => c :: stripImagesFuel fuel rest

def stripImages (s : List Char) : List Char := stripImagesFuel s.length s

/-- Drop up to and including the first newline (`.*?(\n|$)` after a
matched `[iframe]` literal). -/
def dropThroughNL : List Char → List Char
  | [] => []
  | '\n' :: rest => rest
  | _ :: rest => dropThroughNL rest

def iframePat : List Char := "[iframe]".toList

/-- `.replace(/\[iframe\].*?(\n|$)/g, '')` (client.ts line 240). -/
def stripIframesFuel : Nat → List Char → List Char
  | 0, s => s
  | _ + 1, [] => []
  | fuel + 1, c :: rest =>
      if iframePat.isPrefixOf (c :: rest) then
        stripIframesFuel fuel (dropThroughNL ((c :: rest).drop iframePat.length))
      else c :: stripIframesFuel fuel rest

def stripIframes (s : List Char) : List Char := stripIframesFuel s.length s

def hashesPat : List Char := "#####".toList

/-- `cleanText.split(/#####[\s\S]*?(.*?)\n/)` (client.ts line 254).  With
both quantifiers lazy, a match at a `#####` occurrence extends the
captured group to the first `\n` after it (the `[\s\S]*?` stays empty);
there is no match at an occurrence with no later newline.  JavaScript
`split` interleaves the pieces with the captured groups, so the result
alternates piece, heading, piece, heading, …, piece. -/
def splitSectionsFuel : Nat → List Char → List (List Char)
  | 0, s => [s]
  | fuel + 1, s =>
      match findSub hashesPat s with
      | none => [s]
      | some i =>
          let tail := s.drop (i + hashesPat.length)
          match List.findIdx? (fun c => c = '\n') tail with
          | none => [s]
          | some k =>
              s.take i :: tail.take k :: splitSectionsFuel fuel (tail.drop (k + 1))

def splitSections (s : List Char) : List (List Char) :=
  splitSectionsFuel s.length s

/-- Pair heading captures with the piece that follows them: the loop
`for (let i = 1; i < sections.length; i += 2)` reading
`sections[i]` (heading) and `sections[i + 1] || ''` (content). -/
def pairUp : List (List Char) → List (List Char × List Char)
  | [] => []
  | [h] => [(h, [])]
  | h :: c :: rest => (h, c) :: pairUp rest

def sectionPairs : List (List Char) → List (List Char × List Char)
  | [] => []
  | _ :: rest => pairUp rest

/-- The own properties of the `categoryMappings` object literal
(client.ts lines 243-252): the fixed heading-name → canonical-category
mapping. -/
def categoryMappings (name : String) : Option String :=
  if name = "Trending Articles" then some "Trending Articles"
  else if name = "Payments" then some "Payments"
  else if name = "Before You Apply" then some "Before You Apply"
  else if name = "Offer, Rates & Fees" then some "Offer, Rates, & Fees"
  else if name = "Application" then some "Application"
  else if name = "Account" then some "Account"
  else if name = "Online Notary" then some "Online Notary"
  else if name = "Debt Protection" then some "Debt Protection"
  else none

/-- The property names a plain object literal inherits from
`Object.prototype` (including the Annex B accessors present in V8/Node);
reading any of them yields a function or object, which is truthy and not
a string. -/
def objectProtoMembers : List String :=
  ["constructor", "hasOwnProperty", "isPrototypeOf", "propertyIsEnumerable",
   "toLocaleString", "toString", "valueOf", "__proto__",
   "__defineGetter__", "__defineSetter__", "__lookupGetter__",
   "__lookupSetter__"]

/-- The JavaScript value `categoryMappings[categoryName]` can evaluate
to when it is truthy: one of the literal's own string entries, or the
function/object inherited from `Object.prototype` for member names such
as `"constructor"` or `"toString"`. -/
inductive CategoryValue where
  | str (s : String)
  | protoFn (name : String)
deriving Repr, DecidableEq

/-- The property read `categoryMappings[categoryName]` (client.ts line
260): own properties first, then the prototype chain.  `none` models
`undefined`, the only falsy outcome — so `if (!mappedCategory) continue;`
skips a section exactly when this lookup is `none`, and does NOT skip
headings that name an `Object.prototype` member. -/
def categoryMappingsGet (name : String) : Option CategoryValue :=
  match categoryMappings name with
  | some s => some (CategoryValue.str s)
  | none =>
      if objectProtoMembers.contains name then
        some (CategoryValue.protoFn name)
      else none

/-- Does `/[^\n]+\?/` match a prefix of `t`?  Equivalently: the first line
of `t` has a `?` at an index `≥ 1`. -/
def qAfterFirstInLine (t : List Char) : Bool :=
  ((t.takeWhile (fun c => c ≠ '\n')).drop 1).contains '?'

/-- The lookahead `(?=-\s+[^\n]+\?)` of the Q/A split regex: a dash, at
least one whitespace character (`\s+` backtracks over any prefix of the
whitespace run), then a non-empty run of non-newline characters ending at
a `?`. -/
def dashLookahead : List Char → Bool
  | '-' :: rest =>
      let w := (rest.takeWhile jsWhitespace).length
      (List.range w).any fun k0 => qAfterFirstInLine (rest.drop (k0 + 1))
  | _ => false

/-- A separator of `content.trim().split(/\n\s*(?=-\s+[^\n]+\?)/g)`
starting at a `\n` whose remainder is `rest`: the greedy `\s*` consumes
the whole whitespace run (a shorter run would leave a whitespace character
where the lookahead demands `-`), and matches iff the lookahead holds
after it; returns the number of characters consumed after the `\n`. -/
def qaSepLen (rest : List Char) : Option Nat :=
  let w := (rest.takeWhile jsWhitespace).length
  if dashLookahead (rest.drop w) then some w else none

/-- The Q/A split itself (client.ts line 266): split at every separator,
keeping the pieces between them. -/
def qaSplitFuel : Nat → List Char → List Char → List (List Char)
  | 0, acc, rem => [acc.reverse ++ rem]
  | _ + 1, acc, [] => [acc.reverse]
  | fuel + 1, acc, '\n' :: rest =>
      (match qaSepLen rest with
       | some w => acc.reverse :: qaSplitFuel fuel [] (rest.drop w)
       | none => qaSplitFuel fuel ('\n' :: acc) rest)
  | fuel + 1, acc, c :: rest => qaSplitFuel fuel (c :: acc) rest

def qaSplit (s : List Char) : List (List Char) :=
  qaSplitFuel (s.length + 1) [] s

/-- `.replace(<dash regex>, '')` with pattern dash-then-`\s*` and no `g`
flag: remove the first `-` and the whitespace run following it. -/
def removeFirstDashWs : List Char → List Char
  | [] => []
  | '-' :: rest => rest.dropWhile jsWhitespace
  | c :: rest => c :: removeFirstDashWs rest

/-- Match of `/\[([^\]]*)\]\([^)]*\)/` at a position just after `[`:
the link text runs to the first `]`, which must be followed directly by
`(`, and the target runs to the first `)`.  Returns the link text and the
number of characters consumed after the `[`. -/
def linkMatch (rest : List Char) : Option (List Char × Nat) :=
  let txt := rest.takeWhile (fun c => c ≠ ']')
  match rest.drop txt.length with
  | ']' :: '(' :: rest2 =>
      let url := rest2.takeWhile (fun c => c ≠ ')')
      (match rest2.drop url.length with
       | ')' :: _ => some (txt, txt.length + 2 + url.length + 1)
       | _ => none)
  | _ => none

/-- `.replace(/\[([^\]]*)\]\([^)]*\)/g, '$1')` (client.ts line 277):
markdown links become their link text. -/
def stripLinksFuel : Nat → List Char → List Char
  | 0, s => s
  | _ + 1, [] => []
  | fuel + 1, '[' :: rest =>
      (match linkMatch rest with
       | some (txt, consumed) => txt ++ stripLinksFuel fuel (rest.drop consumed)
       | none => '[' :: stripLinksFuel fuel rest)
  | fuel + 1, c :: rest => c :: stripLinksFuel fuel rest

def stripLinks (s : List Char) : List Char := stripLinksFuel s.length s

/-- `.replace(/\s+/g, ' ')` (client.ts line 278): collapse every
whitespace run to a single space. -/
def collapseWsFuel : Nat → List Char → List Char
  | 0, s => s
  | _ + 1, [] => []
  | fuel + 1, c :: rest =>
      if jsWhitespace c then
        ' ' :: collapseWsFuel fuel (rest.dropWhile jsWhitespace)
      else c :: collapseWsFuel fuel rest

def collapseWs (s : List Char) : List Char := collapseWsFuel s.length s

/-- One record built by `processRawTextContent`
(`{_id, chunk_text, category, question}`); the `category` field holds
whatever the `categoryMappings[...]` lookup produced — a canonical
string, or the inherited function/object for a prototype-member
heading. -/
structure ExtractedFaq where
  _id : String
  chunk_text : String
  category : CategoryValue
  question : String
deriving Repr, DecidableEq

/-- A candidate record as consumed by `validateAndCleanFAQs` (the
parameter type at client.ts line 301, whose `category` is a string);
C6 quantifies over arbitrary lists of these. -/
structure RawFaq where
  _id : String
  chunk_text : String
  category : String
  question : String
deriving Repr, DecidableEq

/-- Processing of one Q/A pair (client.ts lines 268-288): skip pairs with
no `?`; split at the first `?`; strip the leading dash and trim to get
the question; trim, de-link and whitespace-collapse the remainder to get
the answer; accept only if both exceed 5 characters, assigning the next
sequential id. -/
def processPair (category : CategoryValue) (counter : Nat) (pair : List Char) :
    Option ExtractedFaq :=
  if pair.contains '?' then
    let qmi := (pair.takeWhile (fun c => c ≠ '?')).length
    let question := jsTrim (removeFirstDashWs (pair.take (qmi + 1)))
    let answer := jsTrim (collapseWs (stripLinks (jsTrim (pair.drop (qmi + 1)))))
    if 5 < question.length ∧ 5 < answer.length then
      some
        { _id := "aven_faq_" ++ toString counter
          chunk_text :=
            "Question: " ++ String.mk question ++ "\n\nAnswer: " ++
              String.mk answer
          category := category
          question := String.mk question }
    else none
  else none

/-- The inner loop over a section's Q/A pairs, threading the id counter
(`faqCounter++` fires only on accepted pairs). -/
def processPairs (category : CategoryValue) :
    List (List Char) → Nat → List ExtractedFaq × Nat
  | [], counter => ([], counter)
  | p :: ps, counter =>
      match processPair category counter p with
      | some faq =>
          let rest := processPairs category ps (counter + 1)
          (faq :: rest.1, rest.2)
      | none => processPairs category ps counter

/-- The outer loop over `(heading, content)` section pairs: a section is
skipped only when the `categoryMappings[...]` read is `undefined` — i.e.
when its trimmed heading neither matches the fixed mapping nor names an
inherited `Object.prototype` member. -/
def processSections :
    List (List Char × List Char) → Nat → List ExtractedFaq
  | [], _ => []
  | (heading, content) :: rest, counter =>
      match categoryMappingsGet (String.mk (jsTrim heading)) with
      | none => processSections rest counter
      | some category =>
          let pr := processPairs category (qaSplit (jsTrim content)) counter
          pr.1 ++ processSections rest pr.2

/-- The boilerplate-stripping chain applied to the main content region
(client.ts lines 237-240). -/
def cleanedText (text : List Char) : List Char :=
  stripIframes (stripImages (removeAll ("SHOW MORE".toList) (splitMarkerTail text)))

/-- `AvenScraper.processRawTextContent` (client.ts lines 235-294). -/
def processRawTextContent (text : List Char) : List ExtractedFaq :=
  processSections (sectionPairs (splitSections (cleanedText text))) 1

/-- Is the introductory marker present (case-insensitively)? -/
def containsMarkerCI (text : List Char) : Bool :=
  (findSub (lowerStr helpMarker) (lowerStr text)).isSome

/-- `ScrapedFAQItem` (exa/types.ts). -/
structure ScrapedFAQItem where
  _id : String
  chunk_text : String
  category : String
  question : String
deriving Repr, DecidableEq

/-- The fixed 8-category closed set (client.ts lines 303-312). -/
def validCategories : List String :=
  ["Trending Articles", "Application", "Payments", "Before You Apply",
   "Offer, Rates, & Fees", "Account", "Online Notary", "Debt Protection"]

/-- The per-record filter of `validateAndCleanFAQs` (client.ts lines
315-335): `chunk_text` must be a non-empty (truthy) string with non-empty
trim, `category` must belong to the closed set, `question` must be a
non-empty string with non-empty trim.  (`!faq` and the `typeof` checks
are vacuous under the embedding's types.) -/
def faqValid (f : RawFaq) : Bool :=
  f.chunk_text ≠ "" && trimStr f.chunk_text ≠ "" &&
    validCategories.contains f.category &&
    (f.question ≠ "" && trimStr f.question ≠ "")

/-- `AvenScraper.validateAndCleanFAQs` (client.ts lines 299-347): filter,
then map to the output shape, trimming `chunk_text` and regenerating a
falsy `_id` from the (post-filter) position. -/
def validateAndCleanFAQs (faqs : List RawFaq) : List ScrapedFAQItem :=
  ((faqs.filter faqValid).enum).map fun p =>
    { _id := if p.2._id ≠ "" then p.2._id else "aven_faq_" ++ toString (p.1 + 1)
      chunk_text := trimStr p.2.chunk_text
      category := p.2.category
      question := p.2.question }

/-- The raw text of the spec's extraction scenario. -/
def c4input : List Char :=
  "## How can we help?\n##### Payments\n- How do I pay? ?\nUse the app.".toList

/-- A raw text whose single heading, `constructor`, matches no entry of
the fixed category mapping but names an inherited `Object.prototype`
member, so its section is NOT skipped. -/
def c5input : List Char :=
  "## How can we help?\n##### constructor\n- Is this a question? Yes it is indeed.".toList

/-- Input list for the C6 witness. -/
def c6input : List RawFaq :=
  [{ _id := "x1", chunk_text := " Question: hi\n\nAnswer: there ",
     category := "Payments", question := "How do I pay?" }]

/-- The single output element `validateAndCleanFAQs` produces for
`c6input` (its `chunk_text` trimmed). -/
def c6item : ScrapedFAQItem :=
  { _id := "x1", chunk_text := "Question: hi\n\nAnswer: there",
    category := "Payments", question := "How do I pay?" }

end Extractor

namespace Storage

/-- Joining the chunks recovers the record list (`batchSize ≥ 1`). -/
theorem batchChunks_flatten (batchSize : Nat) (hb : 1 ≤ batchSize) (l : List α) :
    (batchChunks batchSize l).flatten = l := by
  induction l using batchChunks.induct batchSize with
  | case1 => simp [batchChunks]
  | case2 r rs ih =>
      rw [batchChunks]
      simp only [List.flatten_cons, ih]
      have h : rs.drop (batchSize - 1) = (r :: rs).drop batchSize := by
        cases batchSize with
        | zero => omega
        | succ n => simp
      rw [h, List.take_append_drop]

/-- Each per-chunk result processes at most the chunk's length. -/
theorem upsertRecords_processed_le (o : Option String) (records : List α) :
    (upsertRecords o records).processedCount ≤ records.length := by
  cases o <;> simp [upsertRecords]

/-- Accumulated processed count over any prefix of chunk results is at most
the total record count. -/
theorem runChunks_take_processed_le (storeOutcomes : Nat → Option String)
    (cs : List (List α)) (k j : Nat) :
    (((runChunks storeOutcomes cs k).take j).map (·.processedCount)).sum ≤
      cs.flatten.length := by
  induction cs generalizing k j with
  | nil => simp [runChunks]
  | cons c cs ih =>
      cases j with
      | zero => simp
      | succ j =>
          simp only [runChunks, List.take_succ_cons, List.map_cons, List.sum_cons,
            List.flatten_cons, List.length_append]
          have h1 := upsertRecords_processed_le (storeOutcomes k) c
          have h2 := ih (k + 1) j
          omega

/-- Accumulated processed count over all chunk results is at most the total
record count. -/
theorem runChunks_processed_le (storeOutcomes : Nat → Option String)
    (cs : List (List α)) (k : Nat) :
    ((runChunks storeOutcomes cs k).map (·.processedCount)).sum ≤
      cs.flatten.length := by
  have h := runChunks_take_processed_le storeOutcomes cs k
    (runChunks storeOutcomes cs k).length
  rwa [List.take_length] at h

/-- The batch loop issues one store call per chunk, regardless of which
store calls fail: no chunk failure aborts the remaining chunks. -/
theorem runChunks_length (storeOutcomes : Nat → Option String)
    (cs : List (List α)) (k : Nat) :
    (runChunks storeOutcomes cs k).length = cs.length := by
  induction cs generalizing k with
  | nil => simp [runChunks]
  | cons c cs ih => simp [runChunks, ih]

/-- If every store call from index `a` on fails only at index `k < a`,
i.e. every visited index succeeds, the processed sum is the full length. -/
theorem runChunks_processed_after (msg : String) (k : Nat)
    (cs : List (List α)) (a : Nat) (h : k < a) :
    ((runChunks (fun j => if j = k then some msg else none) cs a).map
      (·.processedCount)).sum = cs.flatten.length := by
  induction cs generalizing a with
  | nil => simp [runChunks]
  | cons c cs ih =>
      have hne : a ≠ k := by omega
      simp only [runChunks, List.map_cons, List.sum_cons, List.flatten_cons,
        List.length_append, if_neg hne, upsertRecords]
      rw [ih (a + 1) (by omega)]

/-- With exactly the store call at chunk index `k` failing, the processed
sum plus the failing chunk's size is the full length. -/
theorem runChunks_processed_single (msg : String) (k : Nat)
    (cs : List (List α)) (a : Nat) (ha : a ≤ k) (hk : k - a < cs.length) :
    ((runChunks (fun j => if j = k then some msg else none) cs a).map
        (·.processedCount)).sum + (cs.get ⟨k - a, hk⟩).length =
      cs.flatten.length := by
  induction cs generalizing a with
  | nil => simp at hk
  | cons c cs ih =>
      by_cases hak : a = k
      · subst hak
        have h0 : a - a = 0 := by omega
        simp only [runChunks, List.map_cons, List.sum_cons, List.flatten_cons,
          List.length_append, if_pos rfl, upsertRecords, h0]
        rw [runChunks_processed_after msg a cs (a + 1) (by omega)]
        simp [List.get]
        omega
      · have ha1 : a + 1 ≤ k := by omega
        have hk1 : k - (a + 1) < cs.length := by
          simp only [List.length_cons] at hk; omega
        have hget : (c :: cs).get ⟨k - a, hk⟩ = cs.get ⟨k - (a + 1), hk1⟩ := by
          have : k - a = (k - (a + 1)) + 1 := by omega
          simp [this, List.get]
        simp only [runChunks, List.map_cons, List.sum_cons, List.flatten_cons,
          List.length_append, if_neg hak, upsertRecords, hget]
        have := ih (a + 1) ha1 hk1
        omega

/-- Auxiliary: with no failing store call among the visited indices, the
accumulated error entries are empty. -/
theorem runChunks_errors_after (msg : String) (k : Nat)
    (cs : List (List α)) (a : Nat) (h : k < a) :
    (((runChunks (fun j => if j = k then some msg else none) cs a).map
      (·.errors)).flatten).length = 0 := by
  induction cs generalizing a with
  | nil => simp [runChunks]
  | cons c cs ih =>
      have hne : a ≠ k := by omega
      simp only [runChunks, List.map_cons, List.flatten_cons,
        List.length_append, if_neg hne, upsertRecords]
      rw [ih (a + 1) (by omega)]
      simp

/-- With exactly the store call at chunk index `k` failing, exactly one
error entry is accumulated. -/
theorem runChunks_errors_single (msg : String) (k : Nat)
    (cs : List (List α)) (a : Nat) (ha : a ≤ k) (hk : k - a < cs.length) :
    (((runChunks (fun j => if j = k then some msg else none) cs a).map
      (·.errors)).flatten).length = 1 := by
  induction cs generalizing a with
  | nil => simp at hk
  | cons c cs ih =>
      by_cases hak : a = k
      · subst hak
        simp only [runChunks, List.map_cons, List.flatten_cons,
          List.length_append, if_pos rfl, upsertRecords]
        rw [runChunks_errors_after msg a cs (a + 1) (by omega)]
        simp
      · have ha1 : a + 1 ≤ k := by omega
        have hk1 : k - (a + 1) < cs.length := by
          simp only [List.length_cons] at hk; omega
        simp only [runChunks, List.map_cons, List.flatten_cons,
          List.length_append, if_neg hak, upsertRecords]
        rw [ih (a + 1) ha1 hk1]
        simp

/-- C1: For every list of records and every positive `batchSize`, the
`BatchResult` returned by `batchUpsertRecords` satisfies
`processedCount + failedCount = records.length`, in both the normal return
(first conjunct) and the catch-branch return (second conjunct, for any
interruption point `j` and error message). -/
theorem batchUpsert_accounting (storeOutcomes : Nat → Option String)
    (records : List α) (batchSize : Nat) (hb : 1 ≤ batchSize)
    (j : Nat) (msg : String) :
    (batchUpsertRecords storeOutcomes records batchSize).processedCount +
        (batchUpsertRecords storeOutcomes records batchSize).failedCount =
      records.length ∧
    (batchUpsertCatch storeOutcomes records batchSize j msg).processedCount +
        (batchUpsertCatch storeOutcomes records batchSize j msg).failedCount =
      records.length := by
  have hflat := batchChunks_flatten batchSize hb records
  constructor
  · have h := runChunks_processed_le storeOutcomes (batchChunks batchSize records) 0
    rw [hflat] at h
    simp only [batchUpsertRecords]
    omega
  · have h := runChunks_take_processed_le storeOutcomes (batchChunks batchSize records) 0 j
    rw [hflat] at h
    simp only [batchUpsertCatch]
    omega

/-- Witness for C1 at a concrete input. -/
theorem batchUpsert_accounting_witness :
    (batchUpsertRecords (fun k => if k = 1 then some "boom" else none)
        [10, 20, 30, 40, 50] 2).processedCount +
      (batchUpsertRecords (fun k => if k = 1 then some "boom" else none)
        [10, 20, 30, 40, 50] 2).failedCount = 5 :=
  (batchUpsert_accounting (fun k => if k = 1 then some "boom" else none)
    [10, 20, 30, 40, 50] 2 (by decide) 1 "late").1

/-- C2: if exactly chunk `k` fails (its store upsert throws) and every
other chunk succeeds, then all chunks are still submitted (one store call
per chunk), the final `processedCount` is `records.length` minus the size
of chunk `k`, exactly one error entry is present, and `success` is false. -/
theorem batchUpsert_single_failure (records : List α) (batchSize k : Nat)
    (msg : String) (hb : 1 ≤ batchSize)
    (hk : k < (batchChunks batchSize records).length) :
    (runChunks (fun j => if j = k then some msg else none)
        (batchChunks batchSize records) 0).length =
      (batchChunks batchSize records).length ∧
    (batchUpsertRecords (fun j => if j = k then some msg else none)
        records batchSize).processedCount =
      records.length - ((batchChunks batchSize records).get ⟨k, hk⟩).length ∧
    (batchUpsertRecords (fun j => if j = k then some msg else none)
        records batchSize).errors.length = 1 ∧
    (batchUpsertRecords (fun j => if j = k then some msg else none)
        records batchSize).success = false := by
  have hflat := batchChunks_flatten batchSize hb records
  have hk0 : k - 0 < (batchChunks batchSize records).length := by omega
  have hp := runChunks_processed_single msg k (batchChunks batchSize records) 0
    (by omega) hk0
  have he := runChunks_errors_single msg k (batchChunks batchSize records) 0
    (by omega) hk0
  have hgg : (batchChunks batchSize records).get ⟨k - 0, hk0⟩ =
      (batchChunks batchSize records).get ⟨k, hk⟩ := rfl
  rw [hgg] at hp
  rw [hflat] at hp
  refine ⟨runChunks_length _ _ _, ?_, ?_, ?_⟩
  · simp only [batchUpsertRecords]
    omega
  · simpa only [batchUpsertRecords] using he
  · simp only [batchUpsertRecords, he]
    simp

/-- Witness for C2 at a concrete input: 5 records, `batchSize = 2`,
chunk 1 (records `[30, 40]`) fails. -/
theorem batchUpsert_single_failure_witness :
    (batchUpsertRecords (fun j => if j = 1 then some "boom" else none)
        [10, 20, 30, 40, 50] 2).processedCount = 5 - 2 ∧
    (batchUpsertRecords (fun j => if j = 1 then some "boom" else none)
        [10, 20, 30, 40, 50] 2).errors.length = 1 ∧
    (batchUpsertRecords (fun j => if j = 1 then some "boom" else none)
        [10, 20, 30, 40, 50] 2).success = false := by
  have h := batchUpsert_single_failure [10, 20, 30, 40, 50] 2 1 "boom"
    (by decide) (by simp [batchChunks])
  exact ⟨by rw [h.2.1]; simp [batchChunks], h.2.2.1, h.2.2.2⟩

/-- C3: `upsertRecords` never re-raises a store exception.  If the store
call throws, the result has `success = false`, `processedCount = 0`,
`failedCount = records.length` and exactly one structured error entry; if
the store accepts the batch, the result has `success = true`,
`processedCount = records.length` and `failedCount = 0`. -/
theorem upsertRecords_contract (records : List α) (msg : String) :
    (upsertRecords (some msg) records).success = false ∧
    (upsertRecords (some msg) records).processedCount = 0 ∧
    (upsertRecords (some msg) records).failedCount = records.length ∧
    (upsertRecords (some msg) records).errors.length = 1 ∧
    (upsertRecords (none : Option String) records).success = true ∧
    (upsertRecords (none : Option String) records).processedCount =
      records.length ∧
    (upsertRecords (none : Option String) records).failedCount = 0 := by
  simp [upsertRecords]

/-- C10: calling `batchUpsertRecords` with an empty record list performs
zero store upsert calls and returns `success = true`,
`processedCount = 0`, `failedCount = 0`, and an empty error list. -/
theorem batchUpsert_empty (storeOutcomes : Nat → Option String)
    (batchSize : Nat) :
    runChunks storeOutcomes (batchChunks batchSize ([] : List α)) 0 = [] ∧
    batchUpsertRecords storeOutcomes ([] : List α) batchSize =
      { success := true, processedCount := 0, failedCount := 0,
        errors := [] } := by
  constructor
  · simp [batchChunks, runChunks]
  · simp [batchUpsertRecords, batchChunks, runChunks]

end Storage

namespace Retry

/-- The loop performs at most `remaining` attempts. -/
theorem scrapeWithRetryAux_attempts_le (outcome : Nat → Except E A) :
    ∀ (remaining attempt : Nat),
      (scrapeWithRetryAux outcome attempt remaining).attempts ≤ remaining := by
  intro remaining
  induction remaining using Nat.strong_induction_on with
  | _ n ih =>
      intro attempt
      match n with
      | 0 => simp [scrapeWithRetryAux]
      | 1 =>
          cases h : outcome attempt <;> simp [scrapeWithRetryAux, h]
      | (r + 2) =>
          cases h : outcome attempt with
          | ok a => simp [scrapeWithRetryAux, h]
          | error e =>
              have hrec := ih (r + 1) (by omega) (attempt + 1)
              simp only [scrapeWithRetryAux, h]
              omega

/-- Unfolding step: a failed attempt with at least two attempts remaining
recurses with the backoff delay `2 ^ attempt * 1000` recorded. -/
theorem scrapeWithRetryAux_fail_step (outcome : Nat → Except E A)
    (a r : Nat) (e : E) (h : outcome a = Except.error e) :
    scrapeWithRetryAux outcome a (r + 2) =
      { result := (scrapeWithRetryAux outcome (a + 1) (r + 1)).result
        attempts := (scrapeWithRetryAux outcome (a + 1) (r + 1)).attempts + 1
        delays :=
          2 ^ a * 1000 :: (scrapeWithRetryAux outcome (a + 1) (r + 1)).delays } := by
  rw [scrapeWithRetryAux, h]

/-- When every attempt in the window fails, the loop runs all attempts,
throws the last attempt's error, and waits `2 ^ i * 1000` ms after each
failed attempt `i` except the last. -/
theorem scrapeWithRetryAux_all_fail (outcome : Nat → Except E A)
    (errs : Nat → E) (r a : Nat)
    (hfail : ∀ i, a ≤ i → i ≤ a + r → outcome i = Except.error (errs i)) :
    scrapeWithRetryAux outcome a (r + 1) =
      { result := Except.error (some (errs (a + r)))
        attempts := r + 1
        delays := (List.range r).map (fun j => 2 ^ (a + j) * 1000) } := by
  induction r generalizing a with
  | zero =>
      have h := hfail a (le_refl a) (by omega)
      simp [scrapeWithRetryAux, h]
  | succ r ih =>
      have h := hfail a (le_refl a) (by omega)
      have hrec := ih (a + 1) (fun i h1 h2 => hfail i (by omega) (by omega))
      have harith : a + 1 + r = a + (r + 1) := by omega
      have hdel : (List.range (r + 1)).map (fun j => 2 ^ (a + j) * 1000) =
          2 ^ a * 1000 ::
            (List.range r).map (fun j => 2 ^ (a + 1 + j) * 1000) := by
        rw [List.range_succ_eq_map, List.map_cons, List.map_map]
        refine congrArg₂ List.cons ?_ ?_
        · simp
        · apply List.map_congr_left
          intro x _
          simp only [Function.comp_apply, Nat.succ_eq_add_one]
          have hx : a + (x + 1) = a + 1 + x := by omega
          rw [hx]
      show scrapeWithRetryAux outcome a (r + 2) = _
      rw [scrapeWithRetryAux_fail_step outcome a r (errs a) h, hrec, harith, hdel]

/-- C8: for every `maxRetries ≥ 1`, `scrapeWithRetry` performs at most
`maxRetries` attempts (each attempt re-running the whole
scrape-extract-validate cycle, modelled by `outcome` being indexed by the
attempt number); when every attempt fails, it performs exactly
`maxRetries` attempts, waits `2 ^ attempt * 1000` ms after each failed
attempt except the last, and throws the error produced by the last
attempt. -/
theorem scrapeWithRetry_spec (outcome : Nat → Except E A) (errs : Nat → E)
    (maxRetries : Nat) (h1 : 1 ≤ maxRetries)
    (hfail : ∀ i, 1 ≤ i → i ≤ maxRetries → outcome i = Except.error (errs i)) :
    (∀ oc : Nat → Except E A,
      (scrapeWithRetry oc maxRetries).attempts ≤ maxRetries) ∧
    scrapeWithRetry outcome maxRetries =
      { result := Except.error (some (errs maxRetries))
        attempts := maxRetries
        delays :=
          (List.range (maxRetries - 1)).map (fun j => 2 ^ (1 + j) * 1000) } := by
  refine ⟨fun oc => scrapeWithRetryAux_attempts_le oc maxRetries 1, ?_⟩
  obtain ⟨r, rfl⟩ : ∃ r, maxRetries = r + 1 := ⟨maxRetries - 1, by omega⟩
  have h := scrapeWithRetryAux_all_fail outcome errs r 1
    (fun i hi1 hi2 => hfail i hi1 (by omega))
  rw [scrapeWithRetry, h]
  have h1r : 1 + r = r + 1 := by omega
  rw [h1r]
  simp

/-- Witness for C8: three attempts, all failing with "boom"; the trace
shows 3 attempts, delays of 2 and 4 seconds, and the last error thrown. -/
theorem scrapeWithRetry_spec_witness :
    (scrapeWithRetry (fun _ => (Except.error "boom" : Except String Nat))
        3).result = Except.error (some "boom") ∧
    (scrapeWithRetry (fun _ => (Except.error "boom" : Except String Nat))
        3).attempts = 3 ∧
    (scrapeWithRetry (fun _ => (Except.error "boom" : Except String Nat))
        3).delays = [2000, 4000] := by
  have h := scrapeWithRetry_spec
    (fun _ => (Except.error "boom" : Except String Nat)) (fun _ => "boom") 3
    (by decide) (fun i _ _ => rfl)
  rw [h.2]
  exact ⟨rfl, rfl, rfl⟩

end Retry

namespace Search

/-- C7: for every `topK` the reranked search requests
`min(topK * 5, 100)` candidates from the store's query interface,
instructs the reranker to return exactly `topK` results
(`topN = topK`) keyed on the full-text `original_text` metadata field,
and — provided the store honors the rerank `topN` bound — the returned
result list has at most `topK` entries. -/
theorem semanticSearch_rerank_spec (queryText : String) (cfgTopK : Option Nat)
    (storeHits : SearchRecordsRequest → List Hit)
    (hstore : ∀ req, (storeHits req).length ≤ req.rerank.topN) :
    (semanticSearchRequest queryText cfgTopK).query.topK =
      min (effectiveTopK cfgTopK * 5) 100 ∧
    (semanticSearchRequest queryText cfgTopK).rerank.topN =
      effectiveTopK cfgTopK ∧
    (semanticSearchRequest queryText cfgTopK).rerank.rankFields =
      ["original_text"] ∧
    (semanticSearch queryText cfgTopK storeHits).length ≤
      effectiveTopK cfgTopK := by
  refine ⟨rfl, rfl, rfl, ?_⟩
  have h := hstore (semanticSearchRequest queryText cfgTopK)
  simpa [semanticSearch] using h

/-- Witness for C7: `topK = 3`, a store truncating its two candidate hits
to the requested `topN`: the request asks for 15 candidates, `topN = 3`,
ranks on `original_text`, and the result list has at most 3 entries. -/
theorem semanticSearch_rerank_spec_witness :
    (semanticSearchRequest "payment methods" (some 3)).query.topK = 15 ∧
    (semanticSearchRequest "payment methods" (some 3)).rerank.topN = 3 ∧
    (semanticSearchRequest "payment methods" (some 3)).rerank.rankFields =
      ["original_text"] ∧
    (semanticSearch "payment methods" (some 3)
      (fun req => [{ id := "a", score := none, fields := [] },
                   { id := "b", score := some 1,
                     fields := [] }].take req.rerank.topN)).length ≤ 3 :=
  semanticSearch_rerank_spec "payment methods" (some 3)
    (fun req => [{ id := "a", score := none, fields := [] },
                 { id := "b", score := some 1,
                   fields := [] }].take req.rerank.topN)
    (fun req => List.length_take_le req.rerank.topN _)

end Search

namespace Chat

/-- A join of a non-empty list starts with its first element. -/
theorem joinSep_cons_data (sep s : String) (rest : List String) :
    ∃ t, (joinSep sep (s :: rest)).data = s.data ++ t := by
  cases rest with
  | nil => exact ⟨[], by simp [joinSep]⟩
  | cons r rest =>
      refine ⟨(sep ++ joinSep sep (r :: rest)).data, ?_⟩
      simp [joinSep, String.data_append]

/-- Every context part starts with the literal `"[Context "`, so the
joined block built from at least one search result is non-empty. -/
theorem buildContext_ne_empty (r : CtxResult) (rs : List CtxResult) :
    buildContext (r :: rs) ≠ "" := by
  obtain ⟨l0, hl0⟩ : ∃ l, (contextPart 0 r).data = '[' :: l := by
    simp only [contextPart, String.data_append]
    exact ⟨_, rfl⟩
  obtain ⟨t, ht⟩ := joinSep_cons_data "\n\n" (contextPart 0 r)
    ((rs.enumFrom 1).map fun p => contextPart p.1 p.2)
  have hparts : ((r :: rs).enum).map (fun p => contextPart p.1 p.2) =
      contextPart 0 r ::
        (rs.enumFrom 1).map (fun p => contextPart p.1 p.2) := by
    simp [List.enum_cons]
  intro hcontra
  have hdata := congrArg String.data hcontra
  rw [buildContext, hparts] at hdata
  simp only [ht, hl0, List.cons_append, List.take_succ_cons] at hdata
  exact absurd hdata (by simp)

/-- C9: with `includeContext` enabled, if the semantic search throws or
returns zero results, the chat handler still produces the LLM answer
(first conjunct) and marks `contextUsed = false` (second conjunct);
`contextUsed` is true only when a non-empty context block was built from
a non-empty search result list (third conjunct). -/
theorem chat_degrades (searchOutcome : Except String (List CtxResult))
    (llmResponse : String)
    (h : (∃ e, searchOutcome = Except.error e) ∨ searchOutcome = Except.ok []) :
    (chatPOST true searchOutcome llmResponse).message = llmResponse ∧
    (chatPOST true searchOutcome llmResponse).contextUsed = false ∧
    ∀ (so : Except String (List CtxResult)) (llm : String),
      (chatPOST true so llm).contextUsed = true →
        ∃ rs, so = Except.ok rs ∧ rs ≠ [] ∧ buildContext rs ≠ "" := by
  refine ⟨rfl, ?_, ?_⟩
  · rcases h with ⟨e, rfl⟩ | rfl <;> simp [chatPOST, chatContext]
  · intro so llm hused
    match so with
    | Except.error e => simp [chatPOST, chatContext] at hused
    | Except.ok [] => simp [chatPOST, chatContext] at hused
    | Except.ok (r :: rs) =>
        refine ⟨r :: rs, rfl, by simp, ?_⟩
        exact buildContext_ne_empty r rs

/-- Witness for C9: a thrown search still yields the LLM answer with
`contextUsed = false`, and a one-result search marks `contextUsed = true`
only with its non-empty context. -/
theorem chat_degrades_witness :
    (chatPOST true (Except.error "store down") "Hello!").message = "Hello!" ∧
    (chatPOST true (Except.error "store down") "Hello!").contextUsed = false := by
  have h := chat_degrades (Except.error "store down") "Hello!"
    (Or.inl ⟨"store down", rfl⟩)
  exact ⟨h.1, h.2.1⟩

end Chat

namespace Extractor

/-- C4 counterexample: on the scenario input the claim as stated is
false — the extractor does yield exactly one "Payments" record, but its
question is `"How do I pay?"` (the first-`?` rule ends the question at
the FIRST question mark; the stray ` ?` goes into the answer), not
`"How do I pay??"`. -/
theorem processRawText_scenario_counterexample :
    ¬ ((processRawTextContent c4input).length = 1 ∧
        ∀ r ∈ processRawTextContent c4input,
          r.category = CategoryValue.str "Payments" ∧
            r.question = "How do I pay??") := by
  decide

/-- C4 as amended: the scenario input yields exactly the one record
`{_id := aven_faq_1, category := Payments, question := "How do I pay?"}`
whose `chunk_text` contains `"Use the app."` (and starts its answer with
the stray `"? "`). -/
theorem processRawText_scenario :
    (processRawTextContent c4input).map
        (fun r => (r._id, r.category, r.question, r.chunk_text)) =
      [("aven_faq_1", CategoryValue.str "Payments", "How do I pay?",
        "Question: How do I pay?\n\nAnswer: ? Use the app.")] ∧
    (findSub "Use the app.".toList
      "Question: How do I pay?\n\nAnswer: ? Use the app.".toList).isSome = true := by
  decide

/-- Sections whose (trimmed) headings make the whole
`categoryMappings[...]` lookup come out `undefined` — neither an own
entry of the fixed mapping nor an inherited `Object.prototype` member —
contribute nothing. -/
theorem processSections_nil_of_unmapped
    (prs : List (List Char × List Char)) (counter : Nat)
    (h : ∀ pr ∈ prs, categoryMappingsGet (String.mk (jsTrim pr.1)) = none) :
    processSections prs counter = [] := by
  induction prs generalizing counter with
  | nil => rfl
  | cons pr rest ih =>
      obtain ⟨heading, content⟩ := pr
      have h0 := h (heading, content) (List.mem_cons_self _ _)
      simp only [processSections, h0]
      exact ih counter fun q hq => h q (List.mem_cons_of_mem _ hq)

/-- C5 counterexample: the claim as stated is false of the program.  On
`c5input` every (trimmed) section heading — here the single heading
`constructor` — matches no entry of the fixed 8-entry category mapping,
yet the extractor returns a record: the object-literal lookup
`categoryMappings["constructor"]` resolves through the prototype chain
to the truthy `Object` constructor, so `if (!mappedCategory) continue;`
does not skip the section. -/
theorem processRawText_proto_counterexample :
    (∀ pr ∈ sectionPairs (splitSections (cleanedText c5input)),
      categoryMappings (String.mk (jsTrim pr.1)) = none) ∧
    (processRawTextContent c5input).map
        (fun r => (r._id, r.category, r.question)) =
      [("aven_faq_1", CategoryValue.protoFn "constructor",
        "Is this a question?")] ∧
    processRawTextContent c5input ≠ [] := by
  decide

/-- C5 as amended: the extractor (a total function of the input text —
it can never throw) returns the empty list whenever the introductory
marker `"## How can we help?"` is absent (case-insensitively), and
whenever the `categoryMappings[...]` lookup of every trimmed section
heading comes out `undefined` — that is, no heading matches the fixed
category mapping NOR names an inherited `Object.prototype` member (the
object-literal lookup falls through to the prototype chain, so headings
such as `constructor` or `toString` are not skipped). -/
theorem processRawText_empty_cases (text : List Char)
    (h : containsMarkerCI text = false ∨
      ∀ pr ∈ sectionPairs (splitSections (cleanedText text)),
        categoryMappingsGet (String.mk (jsTrim pr.1)) = none) :
    processRawTextContent text = [] := by
  rcases h with h | h
  · have hm : splitMarkerTail text = [] := by
      unfold splitMarkerTail
      unfold containsMarkerCI at h
      cases hfs : findSub (lowerStr helpMarker) (lowerStr text) with
      | none => rfl
      | some i => rw [hfs] at h; simp at h
    unfold processRawTextContent cleanedText
    rw [hm]
    rfl
  · exact processSections_nil_of_unmapped _ 1 h

/-- Witness for C5 at a concrete marker-free input. -/
theorem processRawText_empty_cases_witness :
    processRawTextContent "hello world".toList = [] :=
  processRawText_empty_cases "hello world".toList (Or.inl (by decide))

/-- Dropping leading whitespace is idempotent even after the trailing
side has also been dropped: the head of a trimmed list is not
whitespace. -/
theorem jsTrim_idem (l : List Char) : jsTrim (jsTrim l) = jsTrim l := by
  have hdw : List.dropWhile jsWhitespace
      (List.rdropWhile jsWhitespace (List.dropWhile jsWhitespace l)) =
      List.rdropWhile jsWhitespace (List.dropWhile jsWhitespace l) := by
    cases hR : List.rdropWhile jsWhitespace
        (List.dropWhile jsWhitespace l) with
    | nil => rfl
    | cons c cs =>
        obtain ⟨t, ht⟩ :=
          List.rdropWhile_prefix jsWhitespace (List.dropWhile jsWhitespace l)
        rw [hR] at ht
        have hA : List.dropWhile jsWhitespace l = c :: (cs ++ t) := by
          rw [← ht, List.cons_append]
        have hidem := List.dropWhile_idempotent jsWhitespace l
        rw [hA] at hidem
        by_cases hc : jsWhitespace c
        · exfalso
          rw [List.dropWhile_cons, if_pos hc] at hidem
          have hlen := congrArg List.length hidem
          have hle :=
            (List.dropWhile_suffix (l := cs ++ t) jsWhitespace).length_le
          simp only [List.length_cons] at hlen
          omega
        · rw [List.dropWhile_cons, if_neg hc]
  unfold jsTrim
  rw [hdw, List.rdropWhile_idempotent]

/-- `trim()` on packed strings is idempotent. -/
theorem trimStr_idem (s : String) : trimStr (trimStr s) = trimStr s := by
  unfold trimStr
  rw [jsTrim_idem]

/-- C6: `validateAndCleanFAQs` (a total function — it can never throw)
returns a list no longer than its input, and every output element has a
category in the fixed 8-category set, a question with non-empty trim and
a chunk_text with non-empty trim. -/
theorem validateAndClean_spec (faqs : List RawFaq) :
    (validateAndCleanFAQs faqs).length ≤ faqs.length ∧
    ∀ item ∈ validateAndCleanFAQs faqs,
      item.category ∈ validCategories ∧
      trimStr item.question ≠ "" ∧
      trimStr item.chunk_text ≠ "" := by
  constructor
  · calc (validateAndCleanFAQs faqs).length
        = (faqs.filter faqValid).length := by
          simp [validateAndCleanFAQs]
      _ ≤ faqs.length := List.length_filter_le _ _
  · intro item hitem
    simp only [validateAndCleanFAQs, List.mem_map] at hitem
    obtain ⟨p, hp, rfl⟩ := hitem
    have hget : (faqs.filter faqValid)[p.1]? = some p.2 :=
      List.mem_enum_iff_getElem?.mp hp
    have hp2 : p.2 ∈ faqs.filter faqValid := List.getElem?_mem hget
    have hval : faqValid p.2 = true := (List.mem_filter.mp hp2).2
    simp only [faqValid, Bool.and_eq_true, decide_eq_true_eq, ne_eq] at hval
    obtain ⟨⟨⟨hct, hcttrim⟩, hcat⟩, hq, hqtrim⟩ := hval
    refine ⟨?_, ?_, ?_⟩
    · simpa using List.elem_iff.mp hcat
    · simpa using hqtrim
    · simpa [trimStr_idem] using hcttrim

/-- Witness for C6 at a concrete input list: one valid record passes
through with all three output rules holding at the concrete output
element. -/
theorem validateAndClean_spec_witness :
    (validateAndCleanFAQs c6input).length ≤ 1 ∧
    (c6item.category ∈ validCategories ∧
      trimStr c6item.question ≠ "" ∧
      trimStr c6item.chunk_text ≠ "") := by
  have h := validateAndClean_spec c6input
  exact ⟨h.1, h.2 c6item (by decide)⟩

end Extractor
